import Mathlib

/-!
Verification of the Zeek script-optimization back end: the inliner and its
call-graph analysis (src/script_opt/Inline.cc), the ZAM builtin
instruction selector (src/script_opt/ZAM/BuiltIn.cc), and the ZAM
runtime vector / any-type checks (src/script_opt/ZAM/ZBody.cc).
-/

namespace ZeekOpt

/-! ## Vectorized elementwise operations (ZBody.cc, vec_exec, lines 536-560) -/

/-- Binary element-by-element vector operation (ZBody.cc lines 536-560).
The result vector has the length of the first input vector; an output
element is computed only when both corresponding input elements are
present, otherwise it is missing.  Element values are abstracted by the
type alpha and the opcode dispatch switch by the function op. -/
def vec_exec {α β : Type} (op : α → α → β) (vec2 vec3 : List (Option α)) :
    List (Option β) :=
  (List.range vec2.length).map (fun i =>
    match vec2[i]?, vec3[i]? with
    | some (some x), some (some y) => some (op x y)
    | _, _ => none)

/-! ## Numeric vector coercion (ZBody.cc, VEC_COERCE macro, lines 137-170) -/

/-- One numeric vector coercion, modeling the VEC_COERCE macro (ZBody.cc
lines 137-161): per element, a present value failing the overflow check
logs one runtime error and yields a missing output element; a present
value passing the check is converted; a missing input element stays
missing.  Returns the result vector together with the number of runtime
errors logged. -/
def vec_coerce {α β : Type} (ov_check : α → Bool) (cast : α → β)
    (v : List (Option α)) : List (Option β) × Nat :=
  (v.map (fun e =>
      match e with
      | some x => if ov_check x then none else some (cast x)
      | none => none),
   (v.filter (fun e =>
      match e with
      | some x => ov_check x
      | none => false)).length)

/-! ## Any-type reconciliation (ZBody.cc, ZBody::CheckAnyType, lines 440-465) -/

/-- Zeek script types as needed by the any-type reconciliation check: the
any type, record types carrying their list of field identifiers, and
other types identified by their type tag. -/
inductive ZeekType
  | any
  | record (fields : List Nat)
  | base (tag : Nat)
deriving DecidableEq

/-- Modelled from the spec: the exact type match used by CheckAnyType
(same_type lives outside this source subset); two types match exactly
when they are the same type. -/
def same_type (t1 t2 : ZeekType) : Bool := t1 = t2

/-- Modelled from the spec: the record promotion check used by
CheckAnyType (record_promotion_compatible lives outside this source
subset); a superset-field stored record may be used where a narrower
expected record is wanted, so every field of the expected record must be
a field of the stored one. -/
def record_promotion_compatible (expected stored : List Nat) : Bool :=
  expected.all (fun fld => stored.contains fld)

/-- ZBody::CheckAnyType (ZBody.cc lines 440-465): reconcile the concrete
type stored under a statically any-typed slot with the type expected at
its point of use.  Returns the boolean check result together with
whether a runtime error was reported. -/
def CheckAnyType (any_type expected_type : ZeekType) : Bool × Bool :=
  if expected_type = ZeekType.any then (true, false)
  else if same_type any_type expected_type then (true, false)
  else
    match any_type, expected_type with
    | ZeekType.record at_r, ZeekType.record et_r =>
      if record_promotion_compatible et_r at_r then (true, false)
      else (false, true)
    | _, _ => (false, true)

/-! ## Builtin instruction selection (BuiltIn.cc, ZAMCompiler::IsZAM_BuiltIn) -/

/-- Per-builtin strategy facts consulted by IsZAM_BuiltIn: whether the
computed value matters when the call site discards it, and whether both
a value-producing and a side-effect-only opcode variant exist. -/
structure ZAMBuiltIn where
  return_val_matters : Bool
  have_both : Bool
deriving DecidableEq

/-- Facts about one expression handed to IsZAM_BuiltIn, together with the
behavior of the selected strategy's Build method. -/
structure BuiltInCall where
  /-- e is directly a call; otherwise it is an assignment to a call and
  carries an assignment target. -/
  is_bare_call : Bool
  /-- The callee expression is a direct name (not an indirect call). -/
  callee_is_name : Bool
  /-- The named callee has a bound value (the function is defined). -/
  callee_has_val : Bool
  /-- The callee's value is a builtin-kind function. -/
  callee_is_builtin : Bool
  /-- The strategy found for the callee's name in the builtin table. -/
  table_entry : Option ZAMBuiltIn
  /-- Whether the strategy's Build call reports success. -/
  build_ok : Bool
  /-- Whether that Build call emits an instruction. -/
  build_emits : Bool
deriving DecidableEq

/-- Outcome of ZAMCompiler::IsZAM_BuiltIn: the returned boolean (whether
the call was claimed away from the generic call path), whether a
diagnostic warning was emitted, and whether an instruction was
emitted. -/
structure BuiltInOutcome where
  specialized : Bool
  warned : Bool
  instr_emitted : Bool
deriving DecidableEq

/-- ZAMCompiler::IsZAM_BuiltIn (BuiltIn.cc lines 486-581): resolve the
callee (bailing out to the generic path for indirect calls, undefined
functions, and non-builtin callees), look its name up in the builtin
table, handle the discarded-but-required-result and
assignment-without-variant cases, and otherwise defer to the selected
strategy's Build method. -/
def IsZAM_BuiltIn (c : BuiltInCall) : BuiltInOutcome :=
  if c.callee_is_name = false then ⟨false, false, false⟩
  else if c.callee_has_val = false then ⟨false, false, false⟩
  else if c.callee_is_builtin = false then ⟨false, false, false⟩
  else
    match c.table_entry with
    | none => ⟨false, false, false⟩
    | some bi =>
      if bi.return_val_matters && c.is_bare_call then ⟨true, true, false⟩
      else if !bi.return_val_matters && !c.is_bare_call && !bi.have_both then
        ⟨false, false, false⟩
      else ⟨c.build_ok, false, c.build_emits⟩

/-! ## Inlining budget (Inline.cc, PreInline / DoInline / CheckForInlining) -/

/-- The fixed inlining size ceiling (Inline.cc line 12). -/
def MAX_INLINE_SIZE : Nat := 1000

/-- The inliner state relevant to the size budget: the running statement
and expression counts maintained across one inlining pass (the Inliner
members num_stmts and num_exprs). -/
structure InlState where
  num_stmts : Nat
  num_exprs : Nat
deriving DecidableEq

/-- The running total tracked by the budget: statement count plus
expression count. -/
def totalOf (st : InlState) : Nat := st.num_stmts + st.num_exprs

/-- Inliner::PreInline (Inline.cc lines 284-289) restricted to the budget
state: at the start of a pass the running totals are reset to the counts
of the body being inlined into. -/
def PreInline (body_stmts body_exprs : Nat) : InlState :=
  ⟨body_stmts, body_exprs⟩

/-- The budget decision of Inliner::DoInline (Inline.cc lines 358-372):
when the callee body's counts would push the running totals past
MAX_INLINE_SIZE the substitution is refused (none, the null
stop-inlining signal) and the running totals are unchanged; otherwise
the callee counts are added.  The duplication of the callee body and the
construction of the InlineExpr are not modeled; recursive inlining
inside the duplicate only grows the counters through further DoInline
calls of its own. -/
def DoInline (st : InlState) (callee_stmts callee_exprs : Nat) : Option InlState :=
  if st.num_stmts + callee_stmts + st.num_exprs + callee_exprs > MAX_INLINE_SIZE then
    none
  else
    some ⟨st.num_stmts + callee_stmts, st.num_exprs + callee_exprs⟩

/-- One inlining pass over the call sites of a body, in traversal order:
each call site carries its callee body's (statement, expression) counts.
A DoInline refusal stops all further inlining in the pass (its null
return signals stop inlining to the traversal, per the comment at
Inline.cc line 364).  Returns the final budget state and the number of
substitutions performed. -/
def runInlines : InlState → List (Nat × Nat) → InlState × Nat
  | st, [] => (st, 0)
  | st, c :: rest =>
    match DoInline st c.1 c.2 with
    | none => (st, 0)
    | some st' =>
      let r := runInlines st' rest
      (r.1, r.2 + 1)

/-! ## Per-call-site inlining (Inline.cc, Inliner::CheckForInlining, lines 301-356) -/

/-- What Inliner::CheckForInlining returns for one call expression: the
original call unchanged, a fresh InlineExpr replacement, or the null
expression that DoInline produced to signal stop-inlining. -/
inductive CFIOut
  | origCall
  | inlineExpr
  | nullStop
deriving DecidableEq

/-- Facts about one call expression handed to CheckForInlining. -/
structure CallSite where
  /-- The callee expression is a direct name (not an indirect call). -/
  callee_is_name : Bool
  /-- The named callee is a global identifier. -/
  callee_is_global : Bool
  /-- The callee identifier has a bound value. -/
  callee_has_val : Bool
  /-- The callee value is a script function (not a builtin). -/
  callee_is_script : Bool
  /-- The callee is in the inline_ables set computed by Analyze. -/
  callee_inline_able : Bool
  /-- The call occurs inside a deferred-evaluation (when) context. -/
  in_when : Bool
  /-- The callee's declared number of parameters. -/
  nparams : Nat
  /-- The number of argument expressions at the call site. -/
  nargs : Nat
  /-- Statement count of the callee's single body. -/
  body_stmts : Nat
  /-- Expression count of the callee's single body. -/
  body_exprs : Nat
deriving DecidableEq

/-- Inliner::CheckForInlining (Inline.cc lines 301-356): decline (keeping
the original call) for indirect calls, non-globals, unbound or
non-script callees, callees outside inline_ables, calls inside a when
context, and the single-any-parameter arity mismatch; otherwise hand the
call to DoInline, whose budget refusal surfaces as the null
stop-inlining signal. -/
def CheckForInlining (st : InlState) (c : CallSite) : CFIOut × InlState :=
  if c.callee_is_name = false then (CFIOut.origCall, st)
  else if c.callee_is_global = false then (CFIOut.origCall, st)
  else if c.callee_has_val = false then (CFIOut.origCall, st)
  else if c.callee_is_script = false then (CFIOut.origCall, st)
  else if c.callee_inline_able = false then (CFIOut.origCall, st)
  else if c.in_when = true then (CFIOut.origCall, st)
  else if c.nparams = 1 ∧ c.nargs ≠ 1 then (CFIOut.origCall, st)
  else
    match DoInline st c.body_stmts c.body_exprs with
    | none => (CFIOut.nullStop, st)
    | some st' => (CFIOut.inlineExpr, st')

/-! ## Event-handler merge (Inline.cc, Inliner::CollapseEventHandlers, lines 194-275) -/

/-- One event-handler body as seen by the merge: the statement and
expression counts of its statement tree. -/
structure EvBody where
  stmts : Nat
  exprs : Nat
deriving DecidableEq

/-- The function state touched by CollapseEventHandlers: the ordered
variable names of its scope (parameters occupy the first nparams
positions), the declared parameter count, its handler bodies, and its
frame size. -/
structure EvFunc where
  scope_vars : List String
  nparams : Nat
  bodies : List EvBody
  frame_size : Nat
deriving DecidableEq

/-- Result of one merge attempt: the function state afterwards, one flag
per original body recording whether SetShouldNotAnalyze was called on
its FuncInfo, and the success flag of the merge. -/
structure MergeResult where
  func : EvFunc
  deactivated : List Bool
  success : Bool
deriving DecidableEq

/-- The inline loop of CollapseEventHandlers (Inline.cc lines 236-251):
each handler body is inlined in turn into the merged statement list; a
DoInline refusal aborts the whole merge.  Returns the final budget state
on success, none on failure. -/
def inlineAllBodies : InlState → List EvBody → Option InlState
  | st, [] => some st
  | st, b :: rest =>
    match DoInline st b.stmts b.exprs with
    | none => none
    | some st' => inlineAllBodies st' rest

/-- Inliner::CollapseEventHandlers for one event function (Inline.cc
lines 194-275).  A fresh scope holding only the first nparams variables
of the first body's scope is installed with func->SetScope (line 229)
before the inline loop runs.  On success the merged body (whose counts
PostInline sets to the final running totals) replaces all bodies and
every non-primary body is deactivated; on failure the bodies are left
exactly as they were — but the scope installed before the attempt is not
rolled back.  st0 is the budget state PreInline establishes from the
fresh merged statement list. -/
def CollapseEventHandlers (st0 : InlState) (f : EvFunc) : MergeResult :=
  let new_scope := f.scope_vars.take f.nparams
  let f1 : EvFunc := { f with scope_vars := new_scope }
  match inlineAllBodies st0 f.bodies with
  | some stf =>
    { func := { f1 with bodies := [⟨stf.num_stmts, stf.num_exprs⟩] }
      deactivated := false :: (f.bodies.drop 1).map (fun _ => true)
      success := true }
  | none =>
    { func := f1
      deactivated := f.bodies.map (fun _ => false)
      success := false }

/-! ## Call-graph closure and recursion detection (Inline.cc, Inliner::Analyze, lines 14-128)

Functions are indexed by Fin n, with one static profile (the set of
directly called functions) per function. -/

/-- State of Inliner::Analyze's recursion analysis: the per-function call
set (the functions reached so far, directly or indirectly) and the set
of functions still believed non-recursive. -/
structure AnState (n : Nat) where
  call_set : Fin n → Finset (Fin n)
  non_recursive_funcs : Finset (Fin n)

/-- The seeding loop of Inliner::Analyze (Inline.cc lines 23-41): each
call set starts as the function's direct callees, every function is
optimistically inserted into the non-recursive set, and a direct
self-call erases it again. -/
def seedState (n : Nat) (direct : Fin n → Finset (Fin n)) : AnState n :=
  { call_set := direct
    non_recursive_funcs := Finset.univ.filter (fun f => f ∉ direct f) }

/-- The additions one closure step computes for function f (the addls set
of Inline.cc lines 62-90): every function in the call set of a callee cc
of f (skipping cc = f) that is not already in f's own call set. -/
def addlsOf {n : Nat} (cs : Fin n → Finset (Fin n)) (f : Fin n) : Finset (Fin n) :=
  (cs f).biUnion (fun cc => if cc = f then ∅ else cs cc \ cs f)

/-- The callees of f whose call sets expose f as indirectly recursive in
this step (Inline.cc lines 80-88): each cc in f's call set, other than f
itself, with f among the additions pulled up from cc's call set. -/
def exposersOf {n : Nat} (cs : Fin n → Finset (Fin n)) (f : Fin n) : Finset (Fin n) :=
  (cs f).filter (fun cc => cc ≠ f ∧ f ∈ cs cc \ cs f)

/-- Processing of one function within one pass of the closure loop
(Inline.cc lines 58-98): merge the additions into its call set, erase f
and the exposing callees from the non-recursive set when the additions
contain f itself, and report whether anything was added. -/
def processFunc {n : Nat} (st : AnState n) (f : Fin n) : AnState n × Bool :=
  let adds := addlsOf st.call_set f
  if adds = ∅ then (st, false)
  else
    ({ call_set := Function.update st.call_set f (st.call_set f ∪ adds)
       non_recursive_funcs :=
         if f ∈ adds then
           (st.non_recursive_funcs.erase f) \ exposersOf st.call_set f
         else st.non_recursive_funcs },
     true)

/-- One pass of the closure while-loop body (Inline.cc lines 54-99):
process every function in order, threading the state and accumulating
the did-addition flag. -/
def passAux {n : Nat} : AnState n → Bool → List (Fin n) → AnState n × Bool
  | st, b, [] => (st, b)
  | st, b, f :: rest =>
    let r := processFunc st f
    passAux r.1 (b || r.2) rest

/-- One full pass over all functions, starting from a cleared
did-addition flag. -/
def passOne {n : Nat} (st : AnState n) : AnState n × Bool :=
  passAux st false (List.finRange n)

/-- The closure while loop, driven by fuel.  n * n + 1 passes always
suffice to reach the fixed point, because each pass that reports an
addition strictly grows the total call-set size, which is bounded by
n * n. -/
def analyzeLoop {n : Nat} : Nat → AnState n → AnState n
  | 0, st => st
  | fuel + 1, st =>
    let r := passOne st
    if r.2 then analyzeLoop fuel r.1 else st

/-- The call-graph portion of Inliner::Analyze (Inline.cc lines 14-99):
seed the call sets and the non-recursive set, then iterate closure
passes until no pass adds any edge. -/
def Analyze {n : Nat} (direct : Fin n → Finset (Fin n)) : AnState n :=
  analyzeLoop (n * n + 1) (seedState n direct)

/-- Reachability through chains of direct calls: h is reachable from g
through a possibly-empty chain of direct-call edges. -/
inductive Reaches {n : Nat} (direct : Fin n → Finset (Fin n)) (g : Fin n) : Fin n → Prop
  | refl : Reaches direct g g
  | step {x h : Fin n} : Reaches direct g x → h ∈ direct x → Reaches direct g h

/-- f lies on a call cycle of some length: some direct callee of f
reaches f back through direct calls (a self-call is the case g = f with
the empty chain). -/
def OnCycle {n : Nat} (direct : Fin n → Finset (Fin n)) (f : Fin n) : Prop :=
  ∃ g ∈ direct f, Reaches direct g f

/-- Function flavors (Func.h): plain function, event handler, or hook. -/
inductive FuncFlavor
  | function
  | event
  | hook
deriving DecidableEq

/-- The inline_ables selection loop of Inliner::Analyze (Inline.cc lines
101-121): a function becomes inline-able when it is not skipped, is a
plain function (not an event or hook), survived in the non-recursive
set, and its body is not in compiled-to-C++ form. -/
def inlineAbles {n : Nat} (flavor : Fin n → FuncFlavor) (skip cpp : Fin n → Bool)
    (nr : Finset (Fin n)) : Finset (Fin n) :=
  Finset.univ.filter (fun f =>
    skip f = false ∧ flavor f = FuncFlavor.function ∧ f ∈ nr ∧ cpp f = false)

/-- Total size of all call sets, the termination measure of the closure
loop. -/
def totalSize {n : Nat} (st : AnState n) : Nat :=
  ∑ f, (st.call_set f).card

/-! ## Concrete example inputs used by the witnesses -/

/-- A three-function call graph: function 0 calls 1, function 1 calls 2,
function 2 calls nothing. -/
def chainDirect : Fin 3 → Finset (Fin 3) :=
  fun f => if f = 0 then {1} else if f = 1 then {2} else ∅

/-- A two-function call graph with a 2-cycle: 0 calls 1 and 1 calls 0
(Scenario A of the spec). -/
def cycleDirect : Fin 2 → Finset (Fin 2) :=
  fun f => if f = 0 then {1} else {0}

/-- Both example functions are plain functions. -/
def allFunctionFlavor : Fin 2 → FuncFlavor := fun _ => FuncFlavor.function

/-- Neither example function is skipped or compiled. -/
def noFlag2 : Fin 2 → Bool := fun _ => false

/-! ## Lemmas about the closure loop -/

theorem processFunc_of_empty {n : Nat} {st : AnState n} {f : Fin n}
    (ha : addlsOf st.call_set f = ∅) : processFunc st f = (st, false) := by
  simp [processFunc, ha]

theorem processFunc_of_nonempty {n : Nat} {st : AnState n} {f : Fin n}
    (ha : ¬ addlsOf st.call_set f = ∅) :
    processFunc st f =
      ({ call_set := Function.update st.call_set f (st.call_set f ∪ addlsOf st.call_set f)
         non_recursive_funcs :=
           if f ∈ addlsOf st.call_set f then
             (st.non_recursive_funcs.erase f) \ exposersOf st.call_set f
           else st.non_recursive_funcs }, true) := by
  simp [processFunc, ha]

theorem processFunc_fst_cs {n : Nat} {st : AnState n} {f : Fin n}
    (ha : ¬ addlsOf st.call_set f = ∅) :
    (processFunc st f).1.call_set =
      Function.update st.call_set f (st.call_set f ∪ addlsOf st.call_set f) := by
  rw [processFunc_of_nonempty ha]

theorem processFunc_fst_nr {n : Nat} {st : AnState n} {f : Fin n}
    (ha : ¬ addlsOf st.call_set f = ∅) :
    (processFunc st f).1.non_recursive_funcs =
      if f ∈ addlsOf st.call_set f then
        (st.non_recursive_funcs.erase f) \ exposersOf st.call_set f
      else st.non_recursive_funcs := by
  rw [processFunc_of_nonempty ha]

theorem passAux_nil {n : Nat} (st : AnState n) (b : Bool) : passAux st b [] = (st, b) := rfl

theorem passAux_cons {n : Nat} (st : AnState n) (b : Bool) (f : Fin n) (rest : List (Fin n)) :
    passAux st b (f :: rest) =
      passAux (processFunc st f).1 (b || (processFunc st f).2) rest := rfl

theorem mem_addlsOf {n : Nat} {cs : Fin n → Finset (Fin n)} {f x : Fin n} :
    x ∈ addlsOf cs f ↔ ∃ cc ∈ cs f, cc ≠ f ∧ x ∈ cs cc ∧ x ∉ cs f := by
  simp only [addlsOf, Finset.mem_biUnion]
  constructor
  · rintro ⟨cc, hcc, hx⟩
    by_cases hcf : cc = f
    · simp [hcf] at hx
    · simp only [hcf, if_false, Finset.mem_sdiff] at hx
      exact ⟨cc, hcc, hcf, hx.1, hx.2⟩
  · rintro ⟨cc, hcc, hcf, hx1, hx2⟩
    refine ⟨cc, hcc, ?_⟩
    simp only [hcf, if_false, Finset.mem_sdiff]
    exact ⟨hx1, hx2⟩

theorem addlsOf_disjoint {n : Nat} (cs : Fin n → Finset (Fin n)) (f : Fin n) :
    Disjoint (cs f) (addlsOf cs f) := by
  rw [Finset.disjoint_right]
  intro x hx hxf
  obtain ⟨cc, hcc, hne, hx1, hx2⟩ := mem_addlsOf.mp hx
  exact hx2 hxf

theorem addlsOf_empty_closed {n : Nat} {cs : Fin n → Finset (Fin n)} {f : Fin n}
    (h : addlsOf cs f = ∅) : ∀ cc ∈ cs f, cc ≠ f → cs cc ⊆ cs f := by
  intro cc hcc hne x hx
  by_contra hxf
  have hmem : x ∈ addlsOf cs f := mem_addlsOf.mpr ⟨cc, hcc, hne, hx, hxf⟩
  rw [h] at hmem
  exact absurd hmem (Finset.not_mem_empty x)

theorem processFunc_cs_mono {n : Nat} (st : AnState n) (f g : Fin n) :
    st.call_set g ⊆ (processFunc st f).1.call_set g := by
  by_cases ha : addlsOf st.call_set f = ∅
  · rw [processFunc_of_empty ha]
  · rw [processFunc_fst_cs ha]
    rcases eq_or_ne g f with rfl | hne
    · rw [Function.update_same]
      exact Finset.subset_union_left
    · rw [Function.update_noteq hne]

theorem processFunc_nr_mono {n : Nat} (st : AnState n) (f : Fin n) :
    (processFunc st f).1.non_recursive_funcs ⊆ st.non_recursive_funcs := by
  by_cases ha : addlsOf st.call_set f = ∅
  · rw [processFunc_of_empty ha]
  · rw [processFunc_fst_nr ha]
    by_cases hf : f ∈ addlsOf st.call_set f
    · simp only [hf, if_true]
      exact Finset.sdiff_subset.trans (Finset.erase_subset f st.non_recursive_funcs)
    · simp only [hf, if_false]
      exact Finset.Subset.refl _

theorem processFunc_flag_false {n : Nat} {st : AnState n} {f : Fin n}
    (h : (processFunc st f).2 = false) :
    (processFunc st f).1 = st ∧ addlsOf st.call_set f = ∅ := by
  by_cases ha : addlsOf st.call_set f = ∅
  · rw [processFunc_of_empty ha]
    exact ⟨rfl, ha⟩
  · rw [processFunc_of_nonempty ha] at h
    exact absurd h (by simp)

theorem passAux_cs_mono {n : Nat} (l : List (Fin n)) (st : AnState n) (b : Bool) (g : Fin n) :
    st.call_set g ⊆ (passAux st b l).1.call_set g := by
  induction l generalizing st b with
  | nil => rw [passAux_nil]
  | cons f rest ih =>
    rw [passAux_cons]
    exact (processFunc_cs_mono st f g).trans (ih _ _)

theorem passAux_nr_mono {n : Nat} (l : List (Fin n)) (st : AnState n) (b : Bool) :
    (passAux st b l).1.non_recursive_funcs ⊆ st.non_recursive_funcs := by
  induction l generalizing st b with
  | nil => rw [passAux_nil]
  | cons f rest ih =>
    rw [passAux_cons]
    exact (ih _ _).trans (processFunc_nr_mono st f)

theorem passAux_flag_mono {n : Nat} (l : List (Fin n)) (st : AnState n) :
    (passAux st true l).2 = true := by
  induction l generalizing st with
  | nil => rfl
  | cons f rest ih =>
    rw [passAux_cons, Bool.true_or]
    exact ih _

theorem passAux_flag_false_start {n : Nat} {l : List (Fin n)} {st : AnState n} {b : Bool}
    (h : (passAux st b l).2 = false) : b = false := by
  cases b with
  | false => rfl
  | true => rw [passAux_flag_mono l st] at h; exact h

theorem passAux_flag_false {n : Nat} (l : List (Fin n)) (st : AnState n) (b : Bool)
    (h : (passAux st b l).2 = false) :
    (passAux st b l).1 = st ∧ ∀ f ∈ l, addlsOf st.call_set f = ∅ := by
  induction l generalizing st b with
  | nil =>
    rw [passAux_nil]
    exact ⟨rfl, by simp⟩
  | cons f rest ih =>
    rw [passAux_cons] at h ⊢
    have hb : (b || (processFunc st f).2) = false := passAux_flag_false_start h
    have hr2 : (processFunc st f).2 = false := by
      cases hq : (processFunc st f).2
      · rfl
      · rw [hq] at hb; simp at hb
    obtain ⟨hst, hadds⟩ := processFunc_flag_false hr2
    rw [hst] at h ⊢
    obtain ⟨h1, h2⟩ := ih st _ h
    refine ⟨h1, ?_⟩
    intro f' hf'
    rcases List.mem_cons.mp hf' with rfl | hmem
    · exact hadds
    · exact h2 f' hmem

theorem totalSize_le {n : Nat} (st : AnState n) : totalSize st ≤ n * n := by
  have h1 : ∀ f : Fin n, (st.call_set f).card ≤ n := fun f => by
    simpa using Finset.card_le_univ (st.call_set f)
  calc totalSize st ≤ ∑ _f : Fin n, n := Finset.sum_le_sum (fun f _ => h1 f)
    _ = n * n := by simp [Finset.sum_const, mul_comm]

theorem processFunc_totalSize_le {n : Nat} (st : AnState n) (f : Fin n) :
    totalSize st ≤ totalSize (processFunc st f).1 :=
  Finset.sum_le_sum (fun g _ => Finset.card_le_card (processFunc_cs_mono st f g))

theorem processFunc_totalSize_lt {n : Nat} (st : AnState n) (f : Fin n)
    (h : (processFunc st f).2 = true) :
    totalSize st < totalSize (processFunc st f).1 := by
  by_cases ha : addlsOf st.call_set f = ∅
  · rw [processFunc_of_empty ha] at h
    exact absurd h (by simp)
  · have key : ∀ cs : Fin n → Finset (Fin n),
        (∑ g, (cs g).card) = (cs f).card + ∑ g in Finset.univ.erase f, (cs g).card :=
      fun cs => (Finset.add_sum_erase Finset.univ (fun g => (cs g).card)
        (Finset.mem_univ f)).symm
    unfold totalSize
    rw [processFunc_fst_cs ha, key st.call_set,
        key (Function.update st.call_set f (st.call_set f ∪ addlsOf st.call_set f))]
    have herase : ∑ g in Finset.univ.erase f,
        ((Function.update st.call_set f (st.call_set f ∪ addlsOf st.call_set f)) g).card =
        ∑ g in Finset.univ.erase f, (st.call_set g).card := by
      refine Finset.sum_congr rfl (fun g hg => ?_)
      rw [Function.update_noteq (Finset.ne_of_mem_erase hg)]
    rw [herase, Function.update_same,
        Finset.card_union_of_disjoint (addlsOf_disjoint st.call_set f)]
    have hpos : 0 < (addlsOf st.call_set f).card :=
      Finset.card_pos.mpr (Finset.nonempty_iff_ne_empty.mpr ha)
    omega

theorem passAux_totalSize_le {n : Nat} (l : List (Fin n)) (st : AnState n) (b : Bool) :
    totalSize st ≤ totalSize (passAux st b l).1 := by
  induction l generalizing st b with
  | nil => rw [passAux_nil]
  | cons f rest ih =>
    rw [passAux_cons]
    exact (processFunc_totalSize_le st f).trans (ih _ _)

theorem passAux_flag_true_lt {n : Nat} (l : List (Fin n)) (st : AnState n) (b : Bool)
    (h : (passAux st b l).2 = true) :
    b = true ∨ totalSize st < totalSize (passAux st b l).1 := by
  induction l generalizing st b with
  | nil =>
    rw [passAux_nil] at h ⊢
    exact Or.inl h
  | cons f rest ih =>
    rw [passAux_cons] at h ⊢
    rcases ih _ _ h with hb | hlt
    · rcases Bool.or_eq_true_iff.mp hb with hb0 | hr2
      · exact Or.inl hb0
      · refine Or.inr (lt_of_lt_of_le (processFunc_totalSize_lt st f hr2) ?_)
        exact passAux_totalSize_le rest _ _
    · exact Or.inr (lt_of_le_of_lt (processFunc_totalSize_le st f) hlt)

theorem passOne_flag_true_lt {n : Nat} (st : AnState n) (h : (passOne st).2 = true) :
    totalSize st < totalSize (passOne st).1 := by
  rcases passAux_flag_true_lt (List.finRange n) st false h with hb | hlt
  · exact absurd hb (by simp)
  · exact hlt

theorem analyzeLoop_zero {n : Nat} (st : AnState n) : analyzeLoop 0 st = st := rfl

theorem analyzeLoop_succ_true {n : Nat} (fuel : Nat) (st : AnState n)
    (h : (passOne st).2 = true) :
    analyzeLoop (fuel + 1) st = analyzeLoop fuel (passOne st).1 := by
  simp [analyzeLoop, h]

theorem analyzeLoop_succ_false {n : Nat} (fuel : Nat) (st : AnState n)
    (h : (passOne st).2 = false) : analyzeLoop (fuel + 1) st = st := by
  simp [analyzeLoop, h]

theorem analyzeLoop_fixed {n : Nat} (fuel : Nat) (st : AnState n)
    (h : n * n < totalSize st + fuel) :
    (passOne (analyzeLoop fuel st)).2 = false := by
  induction fuel generalizing st with
  | zero => exact absurd (totalSize_le st) (by omega)
  | succ fuel ih =>
    cases hp : (passOne st).2 with
    | false => rw [analyzeLoop_succ_false fuel st hp]; exact hp
    | true =>
      rw [analyzeLoop_succ_true fuel st hp]
      have hlt := passOne_flag_true_lt st hp
      exact ih _ (by omega)

theorem analyzeLoop_cs_mono {n : Nat} (fuel : Nat) (st : AnState n) (g : Fin n) :
    st.call_set g ⊆ (analyzeLoop fuel st).call_set g := by
  induction fuel generalizing st with
  | zero => rw [analyzeLoop_zero]
  | succ fuel ih =>
    cases hp : (passOne st).2 with
    | false => rw [analyzeLoop_succ_false fuel st hp]
    | true =>
      rw [analyzeLoop_succ_true fuel st hp]
      exact (passAux_cs_mono (List.finRange n) st false g).trans (ih _)

theorem passAux_preserve {n : Nat} {P : AnState n → Prop}
    (hP : ∀ st f, P st → P (processFunc st f).1) :
    ∀ (l : List (Fin n)) (st : AnState n) (b : Bool), P st → P (passAux st b l).1 := by
  intro l
  induction l with
  | nil => intro st b h; rw [passAux_nil]; exact h
  | cons f rest ih =>
    intro st b h
    rw [passAux_cons]
    exact ih _ _ (hP st f h)

theorem analyzeLoop_preserve {n : Nat} {P : AnState n → Prop}
    (hP : ∀ st f, P st → P (processFunc st f).1) :
    ∀ (fuel : Nat) (st : AnState n), P st → P (analyzeLoop fuel st) := by
  intro fuel
  induction fuel with
  | zero => intro st h; rw [analyzeLoop_zero]; exact h
  | succ fuel ih =>
    intro st h
    cases hp : (passOne st).2 with
    | false => rw [analyzeLoop_succ_false fuel st hp]; exact h
    | true =>
      rw [analyzeLoop_succ_true fuel st hp]
      exact ih _ (passAux_preserve hP (List.finRange n) st false h)

theorem reaches_trans {n : Nat} {direct : Fin n → Finset (Fin n)} {a b c : Fin n}
    (h1 : Reaches direct a b) (h2 : Reaches direct b c) : Reaches direct a c := by
  induction h2 with
  | refl => exact h1
  | step _ hmem ih => exact Reaches.step ih hmem

theorem processFunc_self_capture {n : Nat} (st : AnState n) (f : Fin n)
    (h : ∀ g, g ∈ st.call_set g → g ∉ st.non_recursive_funcs) :
    ∀ g, g ∈ (processFunc st f).1.call_set g →
      g ∉ (processFunc st f).1.non_recursive_funcs := by
  by_cases ha : addlsOf st.call_set f = ∅
  · rw [processFunc_of_empty ha]; exact h
  · intro g hg
    rw [processFunc_fst_cs ha] at hg
    rcases eq_or_ne g f with rfl | hne
    · rw [Function.update_same, Finset.mem_union] at hg
      rcases hg with h1 | h2
      · exact fun hmem => h g h1 (processFunc_nr_mono st g hmem)
      · rw [processFunc_fst_nr ha]
        simp only [h2, if_true]
        intro hmem
        exact Finset.not_mem_erase g _ (Finset.mem_sdiff.mp hmem).1
    · rw [Function.update_noteq hne] at hg
      exact fun hmem => h g hg (processFunc_nr_mono st f hmem)

theorem processFunc_sound {n : Nat} (direct : Fin n → Finset (Fin n)) (st : AnState n)
    (f : Fin n)
    (h : ∀ f' x, x ∈ st.call_set f' → ∃ g ∈ direct f', Reaches direct g x) :
    ∀ f' x, x ∈ (processFunc st f).1.call_set f' →
      ∃ g ∈ direct f', Reaches direct g x := by
  by_cases ha : addlsOf st.call_set f = ∅
  · rw [processFunc_of_empty ha]; exact h
  · intro f' x hx
    rw [processFunc_fst_cs ha] at hx
    rcases eq_or_ne f' f with rfl | hne
    · rw [Function.update_same, Finset.mem_union] at hx
      rcases hx with h1 | h2
      · exact h f' x h1
      · obtain ⟨cc, hcc, hccf, hxcc, _⟩ := mem_addlsOf.mp h2
        obtain ⟨g, hg, hgcc⟩ := h f' cc hcc
        obtain ⟨g', hg', hg'x⟩ := h cc x hxcc
        exact ⟨g, hg, reaches_trans (Reaches.step hgcc hg') hg'x⟩
    · rw [Function.update_noteq hne] at hx
      exact h f' x hx

theorem closed_mem_of_reaches {n : Nat} {direct cs : Fin n → Finset (Fin n)}
    (hseed : ∀ f, direct f ⊆ cs f)
    (hclosed : ∀ f, ∀ cc ∈ cs f, cc ≠ f → cs cc ⊆ cs f)
    {f g h : Fin n} (hg : g ∈ direct f) (hr : Reaches direct g h) : h ∈ cs f := by
  induction hr with
  | refl => exact hseed f hg
  | @step x h' _ hmem ih =>
    rcases eq_or_ne x f with rfl | hne
    · exact hseed _ hmem
    · exact hclosed f x ih hne (hseed x hmem)

theorem analyze_pass_adds_nothing {n : Nat} (direct : Fin n → Finset (Fin n)) :
    (passOne (Analyze direct)).2 = false :=
  analyzeLoop_fixed (n * n + 1) (seedState n direct) (by omega)

theorem analyze_closed {n : Nat} (direct : Fin n → Finset (Fin n)) :
    ∀ f, ∀ cc ∈ (Analyze direct).call_set f, cc ≠ f →
      (Analyze direct).call_set cc ⊆ (Analyze direct).call_set f := by
  have h2 := passAux_flag_false (List.finRange n) (Analyze direct) false
    (analyze_pass_adds_nothing direct)
  intro f
  exact addlsOf_empty_closed (h2.2 f (List.mem_finRange f))

theorem analyze_seed_sub {n : Nat} (direct : Fin n → Finset (Fin n)) (f : Fin n) :
    direct f ⊆ (Analyze direct).call_set f :=
  analyzeLoop_cs_mono (n * n + 1) (seedState n direct) f

theorem analyze_mem_iff {n : Nat} (direct : Fin n → Finset (Fin n)) (f h : Fin n) :
    h ∈ (Analyze direct).call_set f ↔ ∃ g ∈ direct f, Reaches direct g h := by
  constructor
  · intro hmem
    have hsound : ∀ f' x, x ∈ (Analyze direct).call_set f' →
        ∃ g ∈ direct f', Reaches direct g x := by
      refine analyzeLoop_preserve (P := fun st => ∀ f' x, x ∈ st.call_set f' →
        ∃ g ∈ direct f', Reaches direct g x)
        (fun st f' hst => processFunc_sound direct st f' hst) _ _ ?_
      intro f' x hx
      exact ⟨x, hx, Reaches.refl⟩
    exact hsound f h hmem
  · rintro ⟨g, hg, hr⟩
    exact closed_mem_of_reaches (analyze_seed_sub direct) (analyze_closed direct) hg hr

theorem analyze_self_capture {n : Nat} (direct : Fin n → Finset (Fin n)) :
    ∀ f, f ∈ (Analyze direct).call_set f →
      f ∉ (Analyze direct).non_recursive_funcs := by
  refine analyzeLoop_preserve
    (P := fun st => ∀ g, g ∈ st.call_set g → g ∉ st.non_recursive_funcs)
    (fun st f hst => processFunc_self_capture st f hst) _ _ ?_
  intro g hg
  have hg' : g ∈ direct g := hg
  simp [seedState, Finset.mem_filter, hg']

theorem passOne_nr_mono {n : Nat} (st : AnState n) :
    (passOne st).1.non_recursive_funcs ⊆ st.non_recursive_funcs :=
  passAux_nr_mono (List.finRange n) st false

/-! ## Claim theorems for the call-graph analysis -/

/-- C1: Call-graph closure correctness.  After Inliner::Analyze's
fixed-point iteration terminates, for all functions f, g, h, if f
directly calls g and h is reachable from g through any chain of direct
calls (including the empty chain h = g), then h is a member of the
computed call set of f; the iteration stops only when no pass adds any
edge, and at convergence the call set of every function holds exactly
the functions reachable from it, so the closure is exact. -/
theorem inliner_analyze_closure {n : Nat} (direct : Fin n → Finset (Fin n))
    (f g h : Fin n) (hg : g ∈ direct f) (hr : Reaches direct g h) :
    h ∈ (Analyze direct).call_set f ∧
    (passOne (Analyze direct)).2 = false ∧
    (∀ f' h' : Fin n, h' ∈ (Analyze direct).call_set f' ↔
      ∃ g' ∈ direct f', Reaches direct g' h') :=
  ⟨(analyze_mem_iff direct f h).mpr ⟨g, hg, hr⟩,
    analyze_pass_adds_nothing direct,
    fun f' h' => analyze_mem_iff direct f' h'⟩

/-- Witness for the closure theorem on the concrete call chain
0 → 1 → 2: function 2 ends up in the call set of function 0. -/
theorem inliner_analyze_closure_witness :
    (1 : Fin 3) ∈ chainDirect 0 ∧ Reaches chainDirect 1 2 ∧
      (2 : Fin 3) ∈ (Analyze chainDirect).call_set 0 := by
  have hr : Reaches chainDirect 1 2 := Reaches.step Reaches.refl (by decide)
  exact ⟨by decide, hr, (inliner_analyze_closure chainDirect 0 1 2 (by decide) hr).1⟩

/-- C2: Recursion exclusion.  Every function on a call cycle of any
length (self-call, 2-cycle, or longer chain) is removed from the
non-recursive set by Inliner::Analyze and therefore never enters the
inline_ables set for that pass; and every step of the analysis only ever
removes functions from the non-recursive set, so once removed a function
is never re-added within the pass. -/
theorem inliner_recursion_exclusion {n : Nat} (direct : Fin n → Finset (Fin n))
    (flavor : Fin n → FuncFlavor) (skip cpp : Fin n → Bool) :
    (∀ (st : AnState n) (f : Fin n),
      (processFunc st f).1.non_recursive_funcs ⊆ st.non_recursive_funcs) ∧
    (∀ st : AnState n,
      (passOne st).1.non_recursive_funcs ⊆ st.non_recursive_funcs) ∧
    (∀ f : Fin n, OnCycle direct f →
      f ∉ (Analyze direct).non_recursive_funcs ∧
      f ∉ inlineAbles flavor skip cpp (Analyze direct).non_recursive_funcs) := by
  refine ⟨fun st f => processFunc_nr_mono st f, fun st => passOne_nr_mono st, ?_⟩
  intro f hcyc
  obtain ⟨g, hg, hr⟩ := hcyc
  have hmem : f ∈ (Analyze direct).call_set f :=
    (analyze_mem_iff direct f f).mpr ⟨g, hg, hr⟩
  have hnr := analyze_self_capture direct f hmem
  refine ⟨hnr, ?_⟩
  intro hin
  rw [inlineAbles, Finset.mem_filter] at hin
  exact hnr hin.2.2.2.1

/-- Witness for recursion exclusion on the concrete 2-cycle 0 → 1 → 0
(Scenario A of the spec): function 0 is excluded from inlining. -/
theorem inliner_recursion_exclusion_witness :
    OnCycle cycleDirect 0 ∧
      (0 : Fin 2) ∉ (Analyze cycleDirect).non_recursive_funcs ∧
      (0 : Fin 2) ∉ inlineAbles allFunctionFlavor noFlag2 noFlag2
        (Analyze cycleDirect).non_recursive_funcs := by
  have hcyc : OnCycle cycleDirect 0 :=
    ⟨1, by decide, Reaches.step Reaches.refl (by decide)⟩
  have h := (inliner_recursion_exclusion cycleDirect allFunctionFlavor
    noFlag2 noFlag2).2.2 0 hcyc
  exact ⟨hcyc, h.1, h.2⟩

/-! ## Lemmas and claim theorems for the inlining budget -/

theorem DoInline_some_total {st : InlState} {cs ce : Nat} {st' : InlState}
    (h : DoInline st cs ce = some st') :
    totalOf st' = totalOf st + cs + ce ∧ totalOf st' ≤ MAX_INLINE_SIZE := by
  unfold DoInline at h
  split at h
  · exact absurd h (by simp)
  · rename_i hle
    obtain rfl := Option.some.inj h
    unfold totalOf
    simp only at hle ⊢
    omega

theorem runInlines_total_le (calls : List (Nat × Nat)) (st : InlState)
    (h : totalOf st ≤ MAX_INLINE_SIZE) :
    totalOf (runInlines st calls).1 ≤ MAX_INLINE_SIZE := by
  induction calls generalizing st with
  | nil => exact h
  | cons c rest ih =>
    show totalOf (match DoInline st c.1 c.2 with
      | none => (st, 0)
      | some st' => ((runInlines st' rest).1, (runInlines st' rest).2 + 1)).1 ≤ MAX_INLINE_SIZE
    cases hd : DoInline st c.1 c.2 with
    | none => exact h
    | some st' => exact ih st' (DoInline_some_total hd).2

/-- C4 counterexample: a host body whose own counts exceed the ceiling.
PreInline seeds the running total with the body's own statement and
expression counts, so a body with 1001 statements leaves the accumulated
total above the 1000 ceiling for the whole pass (no substitution is
performed, yet the total exceeds the ceiling). -/
theorem inline_budget_counterexample :
    totalOf (runInlines (PreInline 1001 0) [(1, 1)]).1 > MAX_INLINE_SIZE ∧
    (runInlines (PreInline 1001 0) [(1, 1)]).2 = 0 := by
  decide

/-- C4 (amended): inlining budget within one pass.  The running
statement+expression total is reset by PreInline to the target body's
own counts at the start of each inlining pass; provided those initial
counts do not already exceed the 1000 ceiling, the accumulated total
never exceeds the ceiling during the pass.  A substitution whose callee
counts would push the total over the ceiling is refused with the totals
and all previously performed substitutions left intact, and the refusal
stops all further substitutions of the pass; a performed substitution
adds exactly the callee's counts and keeps the total within the
ceiling. -/
theorem inline_budget_invariant (body_stmts body_exprs : Nat)
    (calls : List (Nat × Nat)) (h : body_stmts + body_exprs ≤ MAX_INLINE_SIZE) :
    totalOf (runInlines (PreInline body_stmts body_exprs) calls).1 ≤ MAX_INLINE_SIZE ∧
    (∀ (st : InlState) (cs ce : Nat) (st' : InlState), DoInline st cs ce = some st' →
      totalOf st' = totalOf st + cs + ce ∧ totalOf st' ≤ MAX_INLINE_SIZE) ∧
    (∀ (st : InlState) (c : Nat × Nat) (rest : List (Nat × Nat)),
      DoInline st c.1 c.2 = none → runInlines st (c :: rest) = (st, 0)) := by
  refine ⟨runInlines_total_le calls _ h, fun st cs ce st' hd => DoInline_some_total hd, ?_⟩
  intro st c rest hd
  show (match DoInline st c.1 c.2 with
    | none => (st, 0)
    | some st' => ((runInlines st' rest).1, (runInlines st' rest).2 + 1)) = (st, 0)
  rw [hd]

/-- Witness for the amended budget theorem: a pass starting from a small
body performs two substitutions and stays within the ceiling. -/
theorem inline_budget_invariant_witness :
    10 + 5 ≤ MAX_INLINE_SIZE ∧
    totalOf (runInlines (PreInline 10 5) [(600, 0), (300, 0)]).1 ≤ MAX_INLINE_SIZE :=
  ⟨by decide, (inline_budget_invariant 10 5 [(600, 0), (300, 0)] (by decide)).1⟩

/-- C5 counterexample: CheckForInlining does return a null expression.
For an eligible call whose callee body exceeds the inlining budget,
DoInline returns the null stop-inlining signal and CheckForInlining
passes it through, so the result is neither the original call nor an
inlined replacement. -/
theorem check_for_inlining_counterexample :
    (CheckForInlining ⟨0, 0⟩
      ⟨true, true, true, true, true, false, 2, 2, 1001, 0⟩).1 = CFIOut.nullStop := by
  decide

/-- C5 (amended): CheckForInlining returns the original call expression,
with the budget state untouched, whenever any eligibility check declines
the call (indirect callee, non-global, unbound, non-script, not
inline-able, inside a when context, or the single-any-parameter arity
mismatch); it returns an inlined replacement whenever the call passes
every eligibility check and the callee's counts fit the budget; and it
returns the null stop-inlining signal exactly when the call passes every
eligibility check but the callee's counts fail the budget check. -/
theorem check_for_inlining_result (st : InlState) (c : CallSite) :
    ((c.callee_is_name = false ∨ c.callee_is_global = false ∨
        c.callee_has_val = false ∨ c.callee_is_script = false ∨
        c.callee_inline_able = false ∨ c.in_when = true ∨
        (c.nparams = 1 ∧ c.nargs ≠ 1)) →
      CheckForInlining st c = (CFIOut.origCall, st)) ∧
    ((c.callee_is_name = true ∧ c.callee_is_global = true ∧
        c.callee_has_val = true ∧ c.callee_is_script = true ∧
        c.callee_inline_able = true ∧ c.in_when = false ∧
        ¬(c.nparams = 1 ∧ c.nargs ≠ 1) ∧
        st.num_stmts + c.body_stmts + st.num_exprs + c.body_exprs ≤ MAX_INLINE_SIZE) →
      (CheckForInlining st c).1 = CFIOut.inlineExpr) ∧
    ((CheckForInlining st c).1 = CFIOut.nullStop ↔
      (c.callee_is_name = true ∧ c.callee_is_global = true ∧
        c.callee_has_val = true ∧ c.callee_is_script = true ∧
        c.callee_inline_able = true ∧ c.in_when = false ∧
        ¬(c.nparams = 1 ∧ c.nargs ≠ 1) ∧
        st.num_stmts + c.body_stmts + st.num_exprs + c.body_exprs > MAX_INLINE_SIZE)) := by
  obtain ⟨a1, a2, a3, a4, a5, a6, np, na, bs, be⟩ := c
  refine ⟨?_, ?_, ?_⟩
  · intro h
    rcases h with h | h | h | h | h | h | h
    · have h' : a1 = false := h
      simp [CheckForInlining, h']
    · have h' : a2 = false := h
      cases a1 <;> simp [CheckForInlining, h']
    · have h' : a3 = false := h
      cases a1 <;> cases a2 <;> simp [CheckForInlining, h']
    · have h' : a4 = false := h
      cases a1 <;> cases a2 <;> cases a3 <;> simp [CheckForInlining, h']
    · have h' : a5 = false := h
      cases a1 <;> cases a2 <;> cases a3 <;> cases a4 <;> simp [CheckForInlining, h']
    · have h' : a6 = true := h
      cases a1 <;> cases a2 <;> cases a3 <;> cases a4 <;> cases a5 <;>
        simp [CheckForInlining, h']
    · have p1 : np = 1 := h.1
      have p2 : ¬ na = 1 := h.2
      cases a1 <;> cases a2 <;> cases a3 <;> cases a4 <;> cases a5 <;> cases a6 <;>
        simp [CheckForInlining, p1, p2]
  · rintro ⟨e1, e2, e3, e4, e5, e6, harg, hbud⟩
    have f1 : a1 = true := e1
    have f2 : a2 = true := e2
    have f3 : a3 = true := e3
    have f4 : a4 = true := e4
    have f5 : a5 = true := e5
    have f6 : a6 = false := e6
    have harg' : ¬ (np = 1 ∧ ¬ na = 1) := harg
    have hbud0 : st.num_stmts + bs + st.num_exprs + be ≤ MAX_INLINE_SIZE := hbud
    have hbud' : ¬ (MAX_INLINE_SIZE < st.num_stmts + bs + st.num_exprs + be) :=
      Nat.not_lt.mpr hbud0
    simp [CheckForInlining, DoInline, f1, f2, f3, f4, f5, f6, harg', hbud']
  · cases a1 <;> cases a2 <;> cases a3 <;> cases a4 <;> cases a5 <;> cases a6 <;>
      simp only [CheckForInlining, DoInline] <;> simp
    by_cases harg : np = 1 ∧ ¬ na = 1
    · obtain ⟨h1, h2⟩ := harg
      simp [h1, h2]
    · have himp : np = 1 → na = 1 := by tauto
      simp only [harg, if_false]
      by_cases hbud : MAX_INLINE_SIZE < st.num_stmts + bs + st.num_exprs + be
      · simp only [hbud, if_true]
        simpa using himp
      · simp [hbud]

/-- Witness for the amended CheckForInlining theorem: a call declined for
being inside a when context keeps the original call and the budget
state, and the same call outside a when context, within budget, gets an
inlined replacement. -/
theorem check_for_inlining_result_witness :
    (⟨true, true, true, true, true, true, 2, 2, 5, 5⟩ : CallSite).in_when = true ∧
    CheckForInlining ⟨0, 0⟩ ⟨true, true, true, true, true, true, 2, 2, 5, 5⟩ =
      (CFIOut.origCall, ⟨0, 0⟩) ∧
    (CheckForInlining ⟨0, 0⟩ ⟨true, true, true, true, true, false, 2, 2, 5, 5⟩).1 =
      CFIOut.inlineExpr :=
  ⟨rfl,
    (check_for_inlining_result ⟨0, 0⟩ ⟨true, true, true, true, true, true, 2, 2, 5, 5⟩).1
      (Or.inr (Or.inr (Or.inr (Or.inr (Or.inr (Or.inl rfl)))))),
    (check_for_inlining_result ⟨0, 0⟩ ⟨true, true, true, true, true, false, 2, 2, 5, 5⟩).2.1
      ⟨rfl, rfl, rfl, rfl, rfl, rfl, by decide, by decide⟩⟩

/-! ## Claim theorems for the event-handler merge -/

/-- C3 counterexample: a failed merge still replaces the function's
scope.  With two handler bodies whose first body exceeds the inlining
budget, the merge fails — yet the function's scope afterwards is the
fresh parameter-only scope installed before the attempt, not the scope
it had before. -/
theorem collapse_scope_counterexample :
    (CollapseEventHandlers ⟨0, 0⟩
        ⟨["x", "y"], 1, [⟨1001, 0⟩, ⟨1, 1⟩], 2⟩).success = false ∧
    (CollapseEventHandlers ⟨0, 0⟩
        ⟨["x", "y"], 1, [⟨1001, 0⟩, ⟨1, 1⟩], 2⟩).func.scope_vars ≠ ["x", "y"] := by
  decide

/-- C3 (amended): event-merge atomicity for the bodies.  If inlining of
any one body fails, then after CollapseEventHandlers returns all
original bodies are left untouched, no body is deactivated, and the
frame size is unchanged — but the function's scope has already been
replaced by the fresh parameter-only scope installed before the merge
attempt, and that replacement is not rolled back on failure. -/
theorem collapse_event_handlers_atomic (st0 : InlState) (f : EvFunc)
    (h : (CollapseEventHandlers st0 f).success = false) :
    (CollapseEventHandlers st0 f).func.bodies = f.bodies ∧
    (∀ d ∈ (CollapseEventHandlers st0 f).deactivated, d = false) ∧
    (CollapseEventHandlers st0 f).func.frame_size = f.frame_size ∧
    (CollapseEventHandlers st0 f).func.scope_vars = f.scope_vars.take f.nparams := by
  cases hr : inlineAllBodies st0 f.bodies with
  | some stf =>
    simp only [CollapseEventHandlers, hr] at h
    exact absurd h (by simp)
  | none =>
    refine ⟨by simp [CollapseEventHandlers, hr], ?_,
      by simp [CollapseEventHandlers, hr], by simp [CollapseEventHandlers, hr]⟩
    intro d hd
    simp only [CollapseEventHandlers, hr] at hd
    rw [List.mem_map] at hd
    obtain ⟨b, _, hb⟩ := hd
    exact hb.symm

/-- Witness for the amended merge-atomicity theorem at the concrete
failing merge. -/
theorem collapse_event_handlers_atomic_witness :
    (CollapseEventHandlers ⟨0, 0⟩
        ⟨["x", "y"], 1, [⟨1001, 0⟩, ⟨1, 1⟩], 2⟩).success = false ∧
    (CollapseEventHandlers ⟨0, 0⟩
        ⟨["x", "y"], 1, [⟨1001, 0⟩, ⟨1, 1⟩], 2⟩).func.bodies = [⟨1001, 0⟩, ⟨1, 1⟩] := by
  have h : (CollapseEventHandlers ⟨0, 0⟩
      ⟨["x", "y"], 1, [⟨1001, 0⟩, ⟨1, 1⟩], 2⟩).success = false := by decide
  exact ⟨h, (collapse_event_handlers_atomic ⟨0, 0⟩ _ h).1⟩

/-! ## Claim theorems for the ZAM vector operations -/

theorem vec_exec_getElem {α β : Type} (op : α → α → β) (v2 v3 : List (Option α))
    (i : Nat) (hi : i < v2.length) :
    (vec_exec op v2 v3)[i]? =
      some (match v2[i]?, v3[i]? with
        | some (some x), some (some y) => some (op x y)
        | _, _ => none) := by
  unfold vec_exec
  rw [List.getElem?_map, List.getElem?_range hi]
  rfl

/-- C6: Vector masking.  For every binary elementwise vector operation
and every index i of the result, the result vector has the same length
as the (first) input vector; if either input's element at i is missing
the output element at i is missing, regardless of the operation; and an
output element is computed (as op applied to the inputs) exactly when
both input elements are present. -/
theorem vec_exec_masking {α β : Type} (op : α → α → β) (v2 v3 : List (Option α))
    (i : Nat) (hi : i < v2.length) :
    (vec_exec op v2 v3).length = v2.length ∧
    (v2[i]? = some none ∨ v3[i]? = some none →
      (vec_exec op v2 v3)[i]? = some none) ∧
    (∀ x y, v2[i]? = some (some x) → v3[i]? = some (some y) →
      (vec_exec op v2 v3)[i]? = some (some (op x y))) := by
  refine ⟨by simp [vec_exec], ?_, ?_⟩
  · intro h
    rw [vec_exec_getElem op v2 v3 i hi]
    rcases h with h2 | h3
    · rw [h2]
    · rw [h3]
      rcases hv2 : v2[i]? with _ | e2
      · rfl
      · cases e2 <;> rfl
  · intro x y h2 h3
    rw [vec_exec_getElem op v2 v3 i hi, h2, h3]

/-- Witness for vector masking: adding the vectors [1, missing] and
[missing, 2] yields a missing element at index 1 (and at index 0). -/
theorem vec_exec_masking_witness :
    (1 : Nat) < [some 1, none].length ∧
    ([some (1 : Nat), none] : List (Option Nat))[1]? = some none ∧
    (vec_exec Nat.add [some 1, none] [none, some 2])[1]? = some none := by
  have h2 : ([some (1 : Nat), none] : List (Option Nat))[1]? = some none := by decide
  exact ⟨by decide, h2,
    (vec_exec_masking Nat.add [some 1, none] [none, some 2] 1 (by decide)).2.1 (Or.inl h2)⟩

theorem vec_coerce_getElem {α β : Type} (ov_check : α → Bool) (cast : α → β)
    (v : List (Option α)) (i : Nat) :
    (vec_coerce ov_check cast v).1[i]? =
      (v[i]?).map (fun e =>
        match e with
        | some x => if ov_check x then none else some (cast x)
        | none => none) := by
  unfold vec_coerce
  rw [List.getElem?_map]

/-- C7: Numeric vector coercion overflow handling.  For every coercion
(abstracted by its overflow check and conversion function) and every
element index: a present element failing the overflow check produces a
missing output element, a present element passing the check is converted
normally, a missing input element stays missing, the output length
equals the input length, and the number of runtime errors logged is zero
exactly when no present element overflows (an overflowing element is
reported for that element only, while the rest of the vector is still
produced). -/
theorem vec_coerce_overflow {α β : Type} (ov_check : α → Bool) (cast : α → β)
    (v : List (Option α)) (i : Nat) :
    (vec_coerce ov_check cast v).1.length = v.length ∧
    (∀ x, v[i]? = some (some x) → ov_check x = true →
      (vec_coerce ov_check cast v).1[i]? = some none) ∧
    (∀ x, v[i]? = some (some x) → ov_check x = false →
      (vec_coerce ov_check cast v).1[i]? = some (some (cast x))) ∧
    (v[i]? = some none → (vec_coerce ov_check cast v).1[i]? = some none) ∧
    ((vec_coerce ov_check cast v).2 = 0 ↔ ∀ x, some x ∈ v → ov_check x = false) := by
  refine ⟨by simp [vec_coerce], ?_, ?_, ?_, ?_⟩
  · intro x hx hov
    rw [vec_coerce_getElem, hx]
    simp [hov]
  · intro x hx hov
    rw [vec_coerce_getElem, hx]
    simp [hov]
  · intro hx
    rw [vec_coerce_getElem, hx]
    rfl
  · show (v.filter _).length = 0 ↔ _
    rw [List.length_eq_zero, List.filter_eq_nil_iff]
    constructor
    · intro h x hx
      have := h (some x) hx
      simpa using this
    · intro h e he
      cases e with
      | none => simp
      | some x => simpa using h x he

/-- Witness for coercion overflow handling: coercing [5, 1, missing]
with overflow check 3 ≤ x nulls the first element and converts the
second. -/
theorem vec_coerce_overflow_witness :
    ([some 5, some 1, none] : List (Option Nat))[0]? = some (some 5) ∧
    Nat.ble 3 5 = true ∧
    (vec_coerce (Nat.ble 3) Nat.succ [some 5, some 1, none]).1[0]? = some none := by
  exact ⟨by decide, by decide,
    (vec_coerce_overflow (Nat.ble 3) Nat.succ [some 5, some 1, none] 0).2.1
      5 (by decide) (by decide)⟩

/-! ## Claim theorems for the any-type check and builtin selection -/

/-- C9: In ZBody::CheckAnyType, if the expected type at the point of use
is itself any, the check succeeds for every stored value type and no
runtime error is reported; a runtime error is only ever reported when
the expected type is concrete. -/
theorem check_any_type_any (t : ZeekType) :
    CheckAnyType t ZeekType.any = (true, false) ∧
    (∀ e : ZeekType, (CheckAnyType t e).2 = true → e ≠ ZeekType.any) := by
  constructor
  · simp [CheckAnyType]
  · intro e herr he
    subst he
    simp [CheckAnyType] at herr

/-- Witness for the any-expected check at a concrete stored type, and a
concrete error case with a concrete (non-any) expected type. -/
theorem check_any_type_any_witness :
    CheckAnyType (ZeekType.base 3) ZeekType.any = (true, false) ∧
    (CheckAnyType (ZeekType.base 3) (ZeekType.base 4)).2 = true ∧
    ZeekType.base 4 ≠ ZeekType.any :=
  ⟨(check_any_type_any (ZeekType.base 3)).1, by decide,
    (check_any_type_any (ZeekType.base 3)).2 (ZeekType.base 4) (by decide)⟩

/-- C8: Discarded-but-required builtin result.  For every call resolved
to a recognized builtin whose strategy declares that the return value
matters, if the call site discards the result (a bare call statement),
then a diagnostic warning is emitted and the call is treated as a no-op:
IsZAM_BuiltIn reports success but emits no instruction and never reaches
the strategy's Build method. -/
theorem builtin_discarded_result (c : BuiltInCall) (bi : ZAMBuiltIn)
    (h1 : c.callee_is_name = true) (h2 : c.callee_has_val = true)
    (h3 : c.callee_is_builtin = true) (h4 : c.table_entry = some bi)
    (h5 : bi.return_val_matters = true) (h6 : c.is_bare_call = true) :
    IsZAM_BuiltIn c = ⟨true, true, false⟩ := by
  simp [IsZAM_BuiltIn, h1, h2, h3, h4, h5, h6]

/-- Witness for the discarded-result no-op: even with a Build that would
emit an instruction, the bare call to a result-matters builtin warns and
emits nothing. -/
theorem builtin_discarded_result_witness :
    (⟨true, true, true, true, some ⟨true, false⟩, true, true⟩ : BuiltInCall).is_bare_call
        = true ∧
    IsZAM_BuiltIn ⟨true, true, true, true, some ⟨true, false⟩, true, true⟩ =
      ⟨true, true, false⟩ :=
  ⟨rfl, builtin_discarded_result _ ⟨true, false⟩ rfl rfl rfl rfl rfl rfl⟩

/-- C10: Builtin specialization declines indirect calls, undefined
callees, and non-builtin callees: in each of these cases IsZAM_BuiltIn
returns false, emits no warning and no instruction, leaving the generic
call path in place; only defined, directly named builtins are ever
checked against the strategy table. -/
theorem builtin_requires_named_defined (c : BuiltInCall)
    (h : c.callee_is_name = false ∨ c.callee_has_val = false ∨
      c.callee_is_builtin = false) :
    IsZAM_BuiltIn c = ⟨false, false, false⟩ := by
  obtain ⟨a1, a2, a3, a4, a5, a6, a7⟩ := c
  rcases h with h | h | h
  · have h' : a2 = false := h
    simp [IsZAM_BuiltIn, h']
  · have h' : a3 = false := h
    cases a2 <;> simp [IsZAM_BuiltIn, h']
  · have h' : a4 = false := h
    cases a2 <;> cases a3 <;> simp [IsZAM_BuiltIn, h']

/-- Witness for declining an indirect call: the generic path is kept. -/
theorem builtin_requires_named_defined_witness :
    (⟨true, false, true, true, some ⟨true, true⟩, true, true⟩ : BuiltInCall).callee_is_name
        = false ∧
    IsZAM_BuiltIn ⟨true, false, true, true, some ⟨true, true⟩, true, true⟩ =
      ⟨false, false, false⟩ :=
  ⟨rfl, builtin_requires_named_defined _ (Or.inl rfl)⟩

end ZeekOpt
